import Mathlib

/-!
Shallow embedding of the JSON-flattening cloud function (src/main.py) and
verification of its specification claims.

The embedding mirrors, definition by definition:
  - `sanitize_column_name`  (main.py lines 22-36)
  - `flatten_json`          (main.py lines 38-67)
  - `handle_case_insensitive_duplicates` (main.py lines 69-93)
  - `schema_enforcement`    (main.py lines 95-150)
  - the flattening dispatch, empty-source check, table-name derivation and
    write step of `process_json_file` (main.py lines 152-218)

JSON values are modelled by the inductive `J`; Python dictionaries keyed by
strings are modelled as insertion-ordered association lists with Python's
assignment semantics (`dinsert`: overwrite in place if the key exists,
append otherwise).
-/

namespace CloudFlattener

/-- Model of the values flowing through the pipeline: JSON scalars
(null / bool / int / string), JSON arrays and objects, plus the two value
forms that only coercion can introduce (`rat` for float-typed cells, `ts`
for datetime-typed cells). Objects keep insertion order. -/
inductive J where
  | null : J
  | bool (b : Bool) : J
  | int (n : Int) : J
  | rat (q : Rat) : J
  | str (s : String) : J
  | ts (s : String) : J
  | arr (xs : List J) : J
  | obj (kvs : List (String × J)) : J

/-- Constructor discriminator, used to refute equalities between values
built from different constructors. -/
def J.tag : J → Nat
  | .null => 0
  | .bool _ => 1
  | .int _ => 2
  | .rat _ => 3
  | .str _ => 4
  | .ts _ => 5
  | .arr _ => 6
  | .obj _ => 7

/-! ## Name sanitizer (main.py lines 22-36) -/

/-- A character kept verbatim by the regex `[^a-zA-Z0-9_]` substitution:
ASCII letter, digit, or underscore. -/
def isOkChar (c : Char) : Bool :=
  c.isAlphanum || c == '_'

/-- `str.replace(old, new)` for a single-character pattern, on char lists. -/
def replaceChar (c : Char) (r : List Char) : List Char → List Char
  | [] => []
  | a :: rest => (if a = c then r else [a]) ++ replaceChar c r rest

/-- `re.sub(r'[^a-zA-Z0-9_]', '_', name)`: every disallowed character
becomes an underscore. -/
def underscoreSub (l : List Char) : List Char :=
  l.map (fun c => if isOkChar c then c else '_')

/-- `re.sub(r'_+', '_', name)`: collapse each run of underscores to one. -/
def collapseUnderscores : List Char → List Char
  | [] => []
  | [a] => [a]
  | a :: b :: rest =>
    if a = '_' ∧ b = '_' then collapseUnderscores (b :: rest)
    else a :: collapseUnderscores (b :: rest)

/-- `name.strip(under)`: drop all leading and trailing underscores. -/
def stripUnderscores (l : List Char) : List Char :=
  ((l.dropWhile (fun c => c == '_')).reverse.dropWhile (fun c => c == '_')).reverse

/-- `sanitize_column_name` from main.py lines 22-36: replace `%` by
`percent`, `/` by `_per_`, every other special character by `_`, collapse
consecutive underscores, strip leading/trailing underscores. -/
def sanitize_column_name (name : String) : String :=
  String.mk (stripUnderscores (collapseUnderscores (underscoreSub
    (replaceChar '/' "_per_".toList (replaceChar '%' "percent".toList name.toList)))))

example : sanitize_column_name "Revenue %/Total" = "Revenue_percent_per_Total" := by decide

/-! ## Python dictionaries

`flatten_json` builds a Python dict by item assignment and `update`. A dict
is modelled as an insertion-ordered association list: assigning to an
existing key overwrites the value in place, assigning to a fresh key
appends. -/

/-- `d[k] = v` on a Python dict. -/
def dinsert (d : List (String × J)) (k : String) (v : J) : List (String × J) :=
  if d.any (fun p => p.1 == k) then
    d.map (fun p => if p.1 == k then (k, v) else p)
  else d ++ [(k, v)]

/-- `d.update(e)` on Python dicts: assign every pair of `e` in order. -/
def dupdate (d e : List (String × J)) : List (String × J) :=
  e.foldl (fun acc p => dinsert acc p.1 p.2) d

/-! ## String conversion

`', '.join(map(str, value))` stringifies arbitrary elements. `pyStr`
models Python `str` (containers print their elements in repr form; the
model renders string repr with surrounding single quotes and no escaping).
-/

/-- Python `str(v)` restricted to scalar values. -/
def pyScalar : J → String
  | .null => "None"
  | .bool b => if b then "True" else "False"
  | .int n => toString n
  | .rat q => toString q
  | .str s => s
  | .ts s => s
  | _ => ""

mutual

/-- Python `str(v)`. -/
def pyStr : J → String
  | .arr xs => "[" ++ pyStrList xs ++ "]"
  | .obj kvs => "\x7b" ++ pyStrPairs kvs ++ "\x7d"
  | v => pyScalar v

/-- Python `repr(v)`, as used for elements inside a container. -/
def pyRepr : J → String
  | .str s => "\x27" ++ s ++ "\x27"
  | .arr xs => "[" ++ pyStrList xs ++ "]"
  | .obj kvs => "\x7b" ++ pyStrPairs kvs ++ "\x7d"
  | v => pyScalar v

/-- Comma-separated reprs of a list's elements. -/
def pyStrList : List J → String
  | [] => ""
  | [x] => pyRepr x
  | x :: rest => pyRepr x ++ ", " ++ pyStrList rest

/-- Comma-separated `k: v` reprs of a dict's items. -/
def pyStrPairs : List (String × J) → String
  | [] => ""
  | [(k, v)] => "\x27" ++ k ++ "\x27: " ++ pyRepr v
  | (k, v) :: rest => "\x27" ++ k ++ "\x27: " ++ pyRepr v ++ ", " ++ pyStrPairs rest

end

/-- `isinstance(v, dict)`. -/
def J.isObj : J → Bool
  | .obj _ => true
  | _ => false

/-! ## Flattener (main.py lines 38-67)

`flatten_json` walks the items of a dict, threading the accumulated flat
dict. Applied to a non-dict, `.items()` raises an `AttributeError` that the
function's own `try` swallows, so it returns the empty dict. -/

mutual

/-- `flatten_json(nested_json, parent_key, sep)` from main.py lines 38-67. -/
def flatten_json (j : J) (parent_key : String) (sep : String) : List (String × J) :=
  match j with
  | .obj kvs => flattenItems kvs parent_key sep []
  | _ => []

/-- The `for key, value in nested_json.items()` loop with accumulator
`acc` standing for `flat_dict`. -/
def flattenItems (kvs : List (String × J)) (parent_key sep : String)
    (acc : List (String × J)) : List (String × J) :=
  match kvs with
  | [] => acc
  | (key, value) :: rest =>
    let new_key := if parent_key = "" then key else parent_key ++ sep ++ key
    let acc2 :=
      match value with
      | .obj kvs2 => dupdate acc (flattenItems kvs2 new_key sep [])
      | .arr xs =>
        if xs.all J.isObj then flattenArr xs new_key sep 0 acc
        else dinsert acc new_key (.str (String.intercalate ", " (xs.map pyStr)))
      | v => dinsert acc new_key v
    flattenItems rest parent_key sep acc2

/-- The `for i, item in enumerate(value)` loop over a list of dicts,
starting at index `i`. -/
def flattenArr (xs : List J) (new_key sep : String) (i : Nat)
    (acc : List (String × J)) : List (String × J) :=
  match xs with
  | [] => acc
  | x :: rest =>
    flattenArr rest new_key sep (i + 1)
      (dupdate acc (flatten_json x (new_key ++ sep ++ toString i) sep))

end

/-! ## Top-level flattening dispatch (main.py lines 173-180) -/

/-- Is this value a list whose elements are all dicts? (The test guarding
both the widening branch inside `flatten_json` and the row-set override in
the dispatch.) -/
def isArrOfObjs : J → Bool
  | .arr xs => xs.all J.isObj
  | _ => false

/-- One iteration of the `for key, value in json_data.items()` loop of
main.py lines 175-177: a key holding a list of dicts overwrites
`flattened_data` with one record per element, any other key leaves it
alone. -/
def flattenStep (acc : List (List (String × J))) (kv : String × J) :
    List (List (String × J)) :=
  match kv.2 with
  | .arr xs => if xs.all J.isObj then xs.map (fun item => flatten_json item "" "_") else acc
  | _ => acc

/-- The records produced for a parsed JSON document by lines 173-179 of
`process_json_file`: a dict yields one record for the whole object, then
each key holding a list of dicts overwrites `flattened_data` with one
record per element (the last such key wins); a list yields one record per
element; any other top level leaves `flattened_data` unassigned, so the
later read raises (modelled as `none`, caught by the outer handler). -/
def process_flatten (j : J) : Option (List (List (String × J))) :=
  match j with
  | .obj kvs => some (kvs.foldl flattenStep [flatten_json (.obj kvs) "" "_"])
  | .arr xs => some (xs.map (fun item => flatten_json item "" "_"))
  | _ => none

example :
    flatten_json (.obj [("a", .obj [("b", .int 1), ("c", .int 2)])]) "" "_" =
      [("a_b", .int 1), ("a_c", .int 2)] := rfl

example :
    flatten_json (.obj [("a", .arr [.obj [("x", .int 1)], .obj [("x", .int 2)]])]) "" "_" =
      [("a_0_x", .int 1), ("a_1_x", .int 2)] := rfl

example :
    flatten_json (.obj [("tags", .arr [.str "a", .str "b", .str "c"])]) "" "_" =
      [("tags", .str "a, b, c")] := rfl

example :
    process_flatten (.arr [.obj [("a", .int 1)], .obj [("a", .int 2)]]) =
      some [[("a", .int 1)], [("a", .int 2)]] := rfl

/-! ## DataFrame model

A pandas DataFrame is modelled as its ordered list of columns, each column
a name together with the column's cells (one per row, in row order).
Missing cells (pandas `NaN` and JSON `null` alike) are `J.null`. -/

/-- Column order of `pd.DataFrame(records)`: keys in order of first
appearance while scanning the records in order. -/
def dfColumns (records : List (List (String × J))) : List String :=
  records.foldl
    (fun cols r =>
      r.foldl (fun cs kv => if cs.contains kv.1 then cs else cs ++ [kv.1]) cols)
    []

/-- Cell of a record at a key, `J.null` when the key is absent. -/
def dlookup (r : List (String × J)) (k : String) : J :=
  match r.find? (fun p => p.1 == k) with
  | some p => p.2
  | none => .null

/-- `pd.DataFrame(flattened_data)` (main.py line 187). -/
def makeDf (records : List (List (String × J))) : List (String × List J) :=
  (dfColumns records).map (fun c => (c, records.map (fun r => dlookup r c)))

/-- `df.columns = [sanitize_column_name(col) for col in df.columns]`
(main.py line 190). -/
def sanitizeColumns (df : List (String × List J)) : List (String × List J) :=
  df.map (fun col => (sanitize_column_name col.1, col.2))

/-! ## Column reconciler (main.py lines 69-93) -/

/-- ASCII lower-casing of one character, as Python `str.lower` acts on the
sanitized ASCII column names. -/
def lowerChar (c : Char) : Char :=
  if 'A' ≤ c ∧ c ≤ 'Z' then Char.ofNat (c.toNat + 32) else c

/-- `s.lower()` on a column name. -/
def strLower (s : String) : String :=
  String.mk (s.toList.map lowerChar)

/-- `Series.combine_first`: keep the caller's cell where it is non-missing,
otherwise fill from the argument. -/
def combine_first (a b : List J) : List J :=
  List.zipWith (fun x y => match x with | .null => y | _ => x) a b

/-- `handle_case_insensitive_duplicates` from main.py lines 69-93: scan
columns left to right; the first column of each case-insensitive class is
kept as canonical, every later case-variant is merged into it with
`combine_first` and dropped. -/
def handle_case_insensitive_duplicates
    (df : List (String × List J)) : List (String × List J) :=
  df.foldl
    (fun acc col =>
      if acc.any (fun c => strLower c.1 == strLower col.1) then
        acc.map (fun c =>
          if strLower c.1 == strLower col.1 then (c.1, combine_first c.2 col.2) else c)
      else acc ++ [col])
    []

/-! ## Schema enforcer (main.py lines 95-150)

The external table lookup is a parameter: `none` models `NotFound` (no
enforcement), `some schema` models an existing table whose schema maps
column names to BigQuery type names. A single `try` wraps the whole
enforcement loop, so the first `astype` failure aborts the remaining
columns while keeping the columns already reassigned. -/

/-- Pandas dtypes targeted by the `type_mapping` dict (after the `int64 to
Int64` and `object to str` adjustments of lines 139-142). -/
inductive PType where
  | pstr : PType
  | pint64 : PType
  | pfloat : PType
  | pbool : PType
  | pdatetime : PType

/-- The `type_mapping` dict of main.py lines 118-128, composed with the
adjustments of lines 139-142; `none` for an unknown BigQuery type. -/
def type_mapping : String → Option PType
  | "STRING" => some .pstr
  | "INTEGER" => some .pint64
  | "FLOAT" => some .pfloat
  | "BOOLEAN" => some .pbool
  | "DATE" => some .pdatetime
  | "DATETIME" => some .pdatetime
  | "TIMESTAMP" => some .pdatetime
  | "NUMERIC" => some .pfloat
  | "BIGNUMERIC" => some .pfloat
  | _ => none

/-- Python `s.split(sep)` for a single-character separator: split at every
occurrence; n separators yield n+1 (possibly empty) parts. -/
def splitOnChar (c : Char) : List Char → List (List Char)
  | [] => [[]]
  | a :: rest =>
    match splitOnChar c rest with
    | [] => [[]]
    | g :: gs => if a = c then [] :: g :: gs else (a :: g) :: gs

/-- Python `sep.join(parts)` for a single-character separator. -/
def joinChar (c : Char) : List (List Char) → List Char
  | [] => []
  | [g] => g
  | g :: g2 :: gs => g ++ c :: joinChar c (g2 :: gs)

/-- Digit run to a natural number; `none` on the empty run or a non-digit. -/
def parseNatChars (l : List Char) : Option Nat :=
  if l.isEmpty then none
  else
    l.foldl
      (fun acc c =>
        match acc with
        | none => none
        | some n => if c.isDigit then some (n * 10 + (c.toNat - 48)) else none)
      (some 0)

/-- Integer literal: optional leading minus sign, then digits. -/
def parseIntChars : List Char → Option Int
  | '-' :: rest => (parseNatChars rest).map (fun n => -(n : Int))
  | l => (parseNatChars l).map (fun n => (n : Int))

/-- Model of `int(s)` as used by integer `astype` on string cells. -/
def str_toInt (s : String) : Option Int :=
  parseIntChars s.toList

/-- Decimal-literal parsing used to model float conversion of strings. -/
def parseRat (s : String) : Option Rat :=
  let p : Bool × List Char :=
    match s.toList with
    | '-' :: rest => (true, rest)
    | l => (false, l)
  let r : Option Rat :=
    match splitOnChar '.' p.2 with
    | [a] => (parseNatChars a).map (fun n => (n : Rat))
    | [a, b] =>
      match parseNatChars a, parseNatChars b with
      | some n, some f => some ((n : Rat) + (f : Rat) / ((10 : Rat) ^ b.length))
      | _, _ => none
    | _ => none
  r.map (fun q => if p.1 then -q else q)

/-- Model of datetime parsing: a string is date-like when it starts with
three dash-separated numeric fields. -/
def isDateLike (s : String) : Bool :=
  match splitOnChar '-' s.toList with
  | a :: b :: c :: _ =>
    (parseNatChars a).isSome && (parseNatChars b).isSome &&
      (parseNatChars ((splitOnChar ' ' c).headD [])).isSome
  | _ => false

/-- Elementwise `astype` conversion of one cell to a pandas dtype; `none`
models the conversion raising. Missing cells stay missing for nullable
targets. -/
def castVal : PType → J → Option J
  | .pstr, v => some (.str (pyStr v))
  | .pint64, .null => some .null
  | .pint64, .int n => some (.int n)
  | .pint64, .bool b => some (.int (if b then 1 else 0))
  | .pint64, .str s => (str_toInt s).map J.int
  | .pint64, .rat q => if q.den = 1 then some (.int q.num) else none
  | .pint64, _ => none
  | .pfloat, .null => some .null
  | .pfloat, .int n => some (.rat (n : Rat))
  | .pfloat, .rat q => some (.rat q)
  | .pfloat, .bool b => some (.rat (if b then 1 else 0))
  | .pfloat, .str s => (parseRat s).map J.rat
  | .pfloat, _ => none
  | .pbool, .null => some (.bool false)
  | .pbool, .bool b => some (.bool b)
  | .pbool, .int n => some (.bool (n != 0))
  | .pbool, .rat q => some (.bool (q != 0))
  | .pbool, .str s => some (.bool (s != ""))
  | .pbool, _ => none
  | .pdatetime, .null => some .null
  | .pdatetime, .ts s => some (.ts s)
  | .pdatetime, .str s => if isDateLike s then some (.ts s) else none
  | .pdatetime, .int n => some (.ts (toString n))
  | .pdatetime, _ => none

/-- One iteration of the enforcement loop for a column: look the column up
in the existing schema, map its BigQuery type, and `astype` the cells.
`some` is the column after the iteration (possibly untouched), `none`
means `astype` raised. -/
def coerceColumn (schema : List (String × String)) (col : String × List J) :
    Option (String × List J) :=
  match schema.find? (fun p => p.1 == col.1) with
  | none => some col
  | some p =>
    match type_mapping p.2 with
    | none => some col
    | some pt =>
      match col.2.mapM (castVal pt) with
      | some vs => some (col.1, vs)
      | none => none

/-- The `for column, dtype in df.dtypes.items()` loop under the single
`try` of main.py lines 109-149: the first raising `astype` aborts the
loop, leaving that column and every later column untouched. -/
def enforceGo (schema : List (String × String)) :
    List (String × List J) → List (String × List J)
  | [] => []
  | col :: rest =>
    match coerceColumn schema col with
    | some col2 => col2 :: enforceGo schema rest
    | none => col :: rest

/-- `schema_enforcement(df, table_id)` from main.py lines 95-150, with the
external table lookup supplied as a parameter. -/
def schema_enforcement (df : List (String × List J))
    (tableSchema : Option (List (String × String))) : List (String × List J) :=
  match tableSchema with
  | none => df
  | some schema => enforceGo schema df

/-! ## Table-name derivation and orchestration (main.py lines 152-218) -/

/-- `os.path.basename`: the part after the last slash. -/
def basename (p : String) : String :=
  String.mk ((splitOnChar '/' p.toList).getLastD [])

/-- `file_name.split(dot)[0]`: the part before the first dot. -/
def stripToFirstDot (s : String) : String :=
  String.mk ((splitOnChar '.' s.toList).headD [])

/-- Table short-name derivation of main.py lines 196-198: basename, part
before the first dot, drop the last two underscore-separated segments,
rejoin. -/
def derive_table_name (file_name : String) : String :=
  let source_file_name := basename file_name
  let base_name := stripToFirstDot source_file_name
  String.mk (joinChar '_' ((splitOnChar '_' base_name.toList).dropLast.dropLast))

/-- Observable outcome of one invocation: the early exit for an empty
record sequence (the success return with the empty-source message and
status 200 at main.py line 184), a final append write of a DataFrame to
the derived table, or the outer exception handler (no write). -/
inductive Outcome where
  | emptySource (file_name : String) : Outcome
  | wrote (table : String) (df : List (String × List J)) : Outcome
  | failed : Outcome

/-- Did this invocation attempt the append write? -/
def Outcome.isWrite : Outcome → Bool
  | .wrote _ _ => true
  | _ => false

/-- Did this invocation end in the empty-source success outcome? -/
def Outcome.isEmptySource : Outcome → Bool
  | .emptySource _ => true
  | _ => false

/-- `process_json_file` from main.py lines 152-218, with the externals
(downloaded JSON document, existing table schema, current timestamp)
supplied as parameters. -/
def process_json_file (file_name : String) (j : J)
    (tableSchema : Option (List (String × String))) (now : String) : Outcome :=
  match process_flatten j with
  | none => .failed
  | some flattened_data =>
    if flattened_data.isEmpty then .emptySource file_name
    else
      let df := makeDf flattened_data
      let df := sanitizeColumns df
      let df := handle_case_insensitive_duplicates df
      let source_file_name := basename file_name
      let table_name := derive_table_name file_name
      let df := schema_enforcement df tableSchema
      let n := flattened_data.length
      let df := df ++ [("create_date", List.replicate n (J.ts now)),
                       ("source_file_name", List.replicate n (J.str source_file_name))]
      .wrote table_name df

/-! ## Lemmas about the top-level dispatch -/

theorem flattenStep_no_qual (acc : List (List (String × J))) (kv : String × J)
    (h : isArrOfObjs kv.2 = false) : flattenStep acc kv = acc := by
  obtain ⟨k, v⟩ := kv
  cases v <;> simp_all [flattenStep, isArrOfObjs]

theorem foldl_flattenStep_no_qual (kvs : List (String × J))
    (h : kvs.filter (fun kv => isArrOfObjs kv.2) = []) (acc : List (List (String × J))) :
    kvs.foldl flattenStep acc = acc := by
  rw [List.filter_eq_nil_iff] at h
  induction kvs generalizing acc with
  | nil => rfl
  | cons kv rest ih =>
    rw [List.foldl_cons, flattenStep_no_qual]
    · exact ih (fun a ha => h a (List.mem_cons_of_mem kv ha)) acc
    · simpa using h kv (List.mem_cons_self kv rest)

theorem foldl_flattenStep_last (kvs : List (String × J)) (k : String) (xs : List J)
    (h : (kvs.filter (fun kv => isArrOfObjs kv.2)).getLast? = some (k, J.arr xs))
    (acc : List (List (String × J))) :
    kvs.foldl flattenStep acc = xs.map (fun item => flatten_json item "" "_") := by
  induction kvs using List.reverseRecOn generalizing acc with
  | nil => simp at h
  | append_singleton kvs2 kv ih =>
    rw [List.foldl_append, List.foldl_cons, List.foldl_nil]
    by_cases hq : isArrOfObjs kv.2 = true
    · have hfil : (kvs2 ++ [kv]).filter (fun kv => isArrOfObjs kv.2) =
          kvs2.filter (fun kv => isArrOfObjs kv.2) ++ [kv] := by
        rw [List.filter_append]
        simp [hq]
      rw [hfil, List.getLast?_concat] at h
      obtain ⟨k2, v⟩ := kv
      cases h2 : v with
      | arr ys =>
        subst h2
        injection h with h5
        injection h5 with h6 h7
        injection h7 with h8
        rw [← h8]
        have hall : ys.all J.isObj = true := by simpa [isArrOfObjs] using hq
        simp only [flattenStep]
        rw [if_pos hall]
      | obj o => subst h2; simp [isArrOfObjs] at hq
      | null => subst h2; simp [isArrOfObjs] at hq
      | bool b => subst h2; simp [isArrOfObjs] at hq
      | int n => subst h2; simp [isArrOfObjs] at hq
      | rat q => subst h2; simp [isArrOfObjs] at hq
      | str s => subst h2; simp [isArrOfObjs] at hq
      | ts s => subst h2; simp [isArrOfObjs] at hq
    · have hfil : (kvs2 ++ [kv]).filter (fun kv => isArrOfObjs kv.2) =
          kvs2.filter (fun kv => isArrOfObjs kv.2) := by
        rw [List.filter_append]
        simp [Bool.eq_false_iff.mpr hq]
      rw [hfil] at h
      rw [flattenStep_no_qual _ _ (Bool.eq_false_iff.mpr hq ▸ rfl)]
      · exact ih h acc

/-- C4: when a top-level object has at least one key whose value is an
array of objects, the final record set is one flat record per element of
the array held by the last such key; the whole-object record and every
earlier qualifying key's rows are replaced. -/
theorem top_level_last_array_key_wins (kvs : List (String × J)) (k : String) (xs : List J)
    (h : (kvs.filter (fun kv => isArrOfObjs kv.2)).getLast? = some (k, J.arr xs)) :
    process_flatten (.obj kvs) = some (xs.map (fun item => flatten_json item "" "_")) := by
  rw [process_flatten, foldl_flattenStep_last kvs k xs h]

theorem top_level_last_array_key_wins_witness :
    (([("a", J.arr [J.obj [("x", J.int 1)]]),
       ("b", J.arr [J.obj [("y", J.int 2)]])].filter
        (fun kv => isArrOfObjs kv.2)).getLast? = some ("b", J.arr [J.obj [("y", J.int 2)]])) ∧
    process_flatten (.obj [("a", J.arr [J.obj [("x", J.int 1)]]),
                           ("b", J.arr [J.obj [("y", J.int 2)]])]) =
      some [[("y", J.int 2)]] :=
  ⟨rfl, (top_level_last_array_key_wins
      [("a", J.arr [J.obj [("x", J.int 1)]]), ("b", J.arr [J.obj [("y", J.int 2)]])]
      "b" [J.obj [("y", J.int 2)]] rfl).trans rfl⟩

/-- C10: a key holding the empty array contributes no column at all (the
vacuous every-element-is-an-object test sends it through the widening
branch with zero sub-records), and a top-level object whose last
array-of-objects-valued key holds the empty array yields an empty record
sequence. -/
theorem empty_array_key_emits_nothing :
    (∀ (k parent_key sep : String) (rest acc : List (String × J)),
      flattenItems ((k, J.arr []) :: rest) parent_key sep acc =
        flattenItems rest parent_key sep acc) ∧
    (∀ (kvs : List (String × J)) (k : String),
      (kvs.filter (fun kv => isArrOfObjs kv.2)).getLast? = some (k, J.arr []) →
      process_flatten (.obj kvs) = some []) := by
  constructor
  · intro k parent_key sep rest acc
    rfl
  · intro kvs k h
    rw [top_level_last_array_key_wins kvs k [] h]
    rfl

theorem empty_array_key_emits_nothing_witness :
    (flattenItems [("a", J.arr []), ("b", J.int 7)] "" "_" [] =
      flattenItems [("b", J.int 7)] "" "_" []) ∧
    process_flatten (.obj [("x", J.int 5), ("a", J.arr [])]) = some [] :=
  ⟨empty_array_key_emits_nothing.1 "a" "" "_" [("b", J.int 7)] [],
   empty_array_key_emits_nothing.2 [("x", J.int 5), ("a", J.arr [])] "a" rfl⟩

/-! ## Empty-source outcome (main.py lines 182-184) -/

/-- C1 (amended): whenever flattening yields an empty record sequence, the
invocation returns the empty-source success outcome and no append write is
attempted. (An empty top-level object, by contrast, flattens to one empty
record and proceeds to the write; see the counterexample.) -/
theorem empty_sequence_returns_empty_source (file_name now : String) (j : J)
    (tableSchema : Option (List (String × String)))
    (h : process_flatten j = some []) :
    process_json_file file_name j tableSchema now = .emptySource file_name ∧
    (process_json_file file_name j tableSchema now).isWrite = false := by
  refine ⟨?_, ?_⟩ <;> simp [process_json_file, h, Outcome.isWrite]

theorem empty_sequence_returns_empty_source_witness :
    process_flatten (J.arr []) = some [] ∧
    process_json_file "events_2024_01_15_103000.json" (J.arr []) none "2024-01-15" =
      .emptySource "events_2024_01_15_103000.json" ∧
    (process_json_file "events_2024_01_15_103000.json" (J.arr []) none "2024-01-15").isWrite =
      false :=
  ⟨rfl,
   (empty_sequence_returns_empty_source "events_2024_01_15_103000.json" "2024-01-15"
      (J.arr []) none rfl).1,
   (empty_sequence_returns_empty_source "events_2024_01_15_103000.json" "2024-01-15"
      (J.arr []) none rfl).2⟩

/-- C1 counterexample: an empty top-level object does not flatten to an
empty record sequence — it yields a single empty record, the empty-source
outcome is not reported, and the append write is attempted. -/
theorem empty_object_proceeds_to_write :
    process_flatten (J.obj []) = some [[]] ∧
    (process_json_file "events_2024_01_15_103000.json" (J.obj []) none "2024-01-15").isEmptySource
      = false ∧
    (process_json_file "events_2024_01_15_103000.json" (J.obj []) none "2024-01-15").isWrite
      = true :=
  ⟨rfl, rfl, rfl⟩

/-! ## Flattening of array values (main.py lines 53-59) -/

theorem flattenArr_eq_enumFrom (xs : List J) (new_key sep : String) :
    ∀ (i : Nat) (acc : List (String × J)),
      flattenArr xs new_key sep i acc =
        (xs.enumFrom i).foldl
          (fun a p => dupdate a (flatten_json p.2 (new_key ++ sep ++ toString p.1) sep)) acc := by
  induction xs with
  | nil => intro i acc; rfl
  | cons x rest ih =>
    intro i acc
    rw [flattenArr, List.enumFrom, List.foldl_cons]
    exact ih (i + 1) _

/-- C7: a key whose value is an array in which every element is an object
is flattened by recursing into each element with prefix
`new_key ++ sep ++ index` (0-based) and merging all resulting pairs into
the same single flat record. -/
theorem array_of_objects_widens (parent_key sep k : String) (xs : List J)
    (h : xs.all J.isObj = true) :
    flatten_json (.obj [(k, .arr xs)]) parent_key sep =
      xs.enum.foldl
        (fun acc p =>
          dupdate acc (flatten_json p.2
            ((if parent_key = "" then k else parent_key ++ sep ++ k) ++ sep ++ toString p.1)
            sep))
        [] := by
  rw [flatten_json, flattenItems]
  simp only [h, if_true]
  rw [flattenItems, List.enum, ← flattenArr_eq_enumFrom]

theorem array_of_objects_widens_witness :
    ([J.obj [("x", J.int 1)], J.obj [("x", J.int 2)]].all J.isObj = true) ∧
    flatten_json (.obj [("a", .arr [J.obj [("x", J.int 1)], J.obj [("x", J.int 2)]])]) "" "_" =
      [("a_0_x", J.int 1), ("a_1_x", J.int 2)] :=
  ⟨rfl,
   (array_of_objects_widens "" "_" "a" [J.obj [("x", J.int 1)], J.obj [("x", J.int 2)]]
      rfl).trans rfl⟩

/-- C8: a key whose value is an array containing at least one non-object
element is stored as a single scalar: the string representations of all
elements joined with a comma and space. -/
theorem mixed_array_joined (parent_key sep k : String) (xs : List J) (x : J)
    (hx : x ∈ xs) (hno : J.isObj x = false) :
    flatten_json (.obj [(k, .arr xs)]) parent_key sep =
      [(if parent_key = "" then k else parent_key ++ sep ++ k,
        J.str (String.intercalate ", " (xs.map pyStr)))] := by
  have hall : xs.all J.isObj = false := by
    rw [List.all_eq_false]
    exact ⟨x, hx, by simp [hno]⟩
  rw [flatten_json, flattenItems]
  simp only [hall, Bool.false_eq_true, if_false]
  rw [flattenItems]
  simp [dinsert]

theorem mixed_array_joined_witness :
    (J.str "a" ∈ [J.str "a", J.str "b", J.str "c"]) ∧ (J.isObj (J.str "a") = false) ∧
    flatten_json (.obj [("tags", .arr [J.str "a", J.str "b", J.str "c"])]) "" "_" =
      [("tags", J.str "a, b, c")] :=
  ⟨List.mem_cons_self _ _, rfl,
   (mixed_array_joined "" "_" "tags" [J.str "a", J.str "b", J.str "c"] (J.str "a")
      (List.mem_cons_self _ _) rfl).trans rfl⟩

/-! ## Table-name derivation (main.py lines 196-198) -/

/-- Stripping a filename extension as the claim words it: remove the part
after the last dot (a name without a dot is unchanged). -/
def stripExtension (s : String) : String :=
  match splitOnChar '.' s.toList with
  | [] => s
  | [a] => String.mk a
  | parts => String.mk (joinChar '.' parts.dropLast)

/-- The derivation exactly as the claim describes it: base filename, strip
its extension, split on underscores, drop the last two segments, rejoin. -/
def claimed_table_name (file_name : String) : String :=
  String.mk (joinChar '_'
    ((splitOnChar '_' (stripExtension (basename file_name)).toList).dropLast.dropLast))

theorem dropLast_dropLast {α : Type} (l : List α) :
    l.dropLast.dropLast = l.take (l.length - 2) := by
  rw [List.dropLast_eq_take, List.dropLast_eq_take, List.length_take, List.take_take]
  congr 1
  omega

/-- C9 counterexample: the code truncates the base filename at its FIRST
dot (not at the extension), and on the claim's own example the derived
short name is `sales_report_2024_01`, not `sales_report_2024_01_15`. -/
theorem table_name_derivation_counterexample :
    derive_table_name "sales_report_2024_01_15_103000.json" = "sales_report_2024_01" ∧
    "sales_report_2024_01" ≠ "sales_report_2024_01_15" ∧
    claimed_table_name "archive.backup_a_1_2.json" = "archive.backup_a" ∧
    derive_table_name "archive.backup_a_1_2.json" = "" ∧
    "archive.backup_a" ≠ "" := by
  refine ⟨rfl, ?_, rfl, rfl, ?_⟩ <;> decide

/-- C9 (amended): the destination table's short name is derived
deterministically by taking the base filename, truncating it at the first
dot, splitting on underscores, dropping the last two segments and
rejoining with underscores; the claim's example file yields
`sales_report_2024_01`. -/
theorem table_name_derivation (file_name : String) :
    (derive_table_name file_name =
      String.mk (joinChar '_'
        ((splitOnChar '_' (stripToFirstDot (basename file_name)).toList).take
          ((splitOnChar '_' (stripToFirstDot (basename file_name)).toList).length - 2)))) ∧
    derive_table_name "sales_report_2024_01_15_103000.json" = "sales_report_2024_01" := by
  refine ⟨?_, rfl⟩
  rw [derive_table_name, dropLast_dropLast]

theorem table_name_derivation_witness :
    derive_table_name "sales_report_2024_01_15_103000.json" = "sales_report_2024_01" :=
  (table_name_derivation "sales_report_2024_01_15_103000.json").2

/-! ## Schema enforcement error handling (main.py lines 109-150) -/

/-- C2 counterexample: with an existing TargetSchema mapping both columns
to INTEGER, the coercion failure on column a is caught — but the single
try wraps the whole loop, so column b (shared with the schema, and
coercible when enforced on its own) is left at its current string type
rather than being coerced. -/
theorem coercion_failure_aborts_rest :
    schema_enforcement [("a", [J.str "thirty"]), ("b", [J.str "30"])]
        (some [("a", "INTEGER"), ("b", "INTEGER")]) =
      [("a", [J.str "thirty"]), ("b", [J.str "30"])] ∧
    schema_enforcement [("b", [J.str "30"])] (some [("a", "INTEGER"), ("b", "INTEGER")]) =
      [("b", [J.int 30])] ∧
    schema_enforcement [("a", [J.str "thirty"]), ("b", [J.str "30"])]
        (some [("a", "INTEGER"), ("b", "INTEGER")]) ≠
      [("a", [J.str "thirty"]), ("b", [J.int 30])] := by
  refine ⟨rfl, rfl, fun h => ?_⟩
  exact absurd
    (congrArg
      (fun df =>
        match df with
        | _ :: (_, v :: _) :: _ => J.tag v
        | _ => 99)
      h)
    (by decide)

/-- C2 (amended): during schema enforcement against an existing
TargetSchema, a coercion failure is caught and the batch still proceeds
(already-coerced columns keep their coerced values), but the failing
column and every column after it in column order are left untouched —
enforcement does not continue past the first failure. Formally: the
result is a coerced prefix of the batch followed by an untouched suffix,
and the split point is either the end of the batch or the first column
whose coercion raises. -/
theorem coercion_failure_splits_batch (df : List (String × List J))
    (schema : List (String × String)) :
    ∃ k,
      schema_enforcement df (some schema) =
        (df.take k).map (fun col => (coerceColumn schema col).getD col) ++ df.drop k ∧
      (∀ col ∈ df.take k, (coerceColumn schema col).isSome = true) ∧
      (k = df.length ∨ ∃ col, df[k]? = some col ∧ coerceColumn schema col = none) := by
  induction df with
  | nil => exact ⟨0, rfl, by simp, Or.inl rfl⟩
  | cons col rest ih =>
    obtain ⟨k, h1, h2, h3⟩ := ih
    rw [schema_enforcement] at h1
    cases hc : coerceColumn schema col with
    | some col2 =>
      refine ⟨k + 1, ?_, ?_, ?_⟩
      · show enforceGo schema (col :: rest) = _
        rw [enforceGo, hc, List.take_succ_cons, List.map_cons, List.drop_succ_cons, hc,
          Option.getD_some, h1]
        rfl
      · intro c hmem
        rw [List.take_succ_cons, List.mem_cons] at hmem
        rcases hmem with rfl | hmem
        · rw [hc]; rfl
        · exact h2 c hmem
      · rcases h3 with h3 | ⟨c, hg, hn⟩
        · exact Or.inl (by simp [h3])
        · exact Or.inr ⟨c, by simpa using hg, hn⟩
    | none =>
      refine ⟨0, ?_, by simp, Or.inr ⟨col, by simp, hc⟩⟩
      show enforceGo schema (col :: rest) = _
      rw [enforceGo, hc]
      simp

theorem coercion_failure_splits_batch_witness :
    ∃ k,
      schema_enforcement [("age", [J.str "30"]), ("note", [J.str "hi"])]
          (some [("age", "INTEGER")]) =
        (([("age", [J.str "30"]), ("note", [J.str "hi"])].take k).map
          (fun col => (coerceColumn [("age", "INTEGER")] col).getD col)) ++
          [("age", [J.str "30"]), ("note", [J.str "hi"])].drop k ∧
      (∀ col ∈ [("age", [J.str "30"]), ("note", [J.str "hi"])].take k,
        (coerceColumn [("age", "INTEGER")] col).isSome = true) ∧
      (k = [("age", [J.str "30"]), ("note", [J.str "hi"])].length ∨
        ∃ col, [("age", [J.str "30"]), ("note", [J.str "hi"])][k]? = some col ∧
          coerceColumn [("age", "INTEGER")] col = none) :=
  coercion_failure_splits_batch [("age", [J.str "30"]), ("note", [J.str "hi"])]
    [("age", "INTEGER")]

/-! ## Sanitizer lemmas -/

theorem mem_collapse : ∀ (l : List Char) (c : Char), c ∈ collapseUnderscores l → c ∈ l
  | [], c, h => by simp [collapseUnderscores] at h
  | [a], c, h => by simpa [collapseUnderscores] using h
  | a :: b :: rest, c, h => by
    rw [collapseUnderscores] at h
    by_cases hab : a = '_' ∧ b = '_'
    · rw [if_pos hab] at h
      exact List.mem_cons_of_mem a (mem_collapse (b :: rest) c h)
    · rw [if_neg hab] at h
      rcases List.mem_cons.mp h with rfl | h2
      · exact List.mem_cons_self c (b :: rest)
      · exact List.mem_cons_of_mem a (mem_collapse (b :: rest) c h2)

theorem collapse_head? : ∀ (l : List Char), (collapseUnderscores l).head? = l.head?
  | [] => rfl
  | [_] => rfl
  | a :: b :: rest => by
    rw [collapseUnderscores]
    by_cases hab : a = '_' ∧ b = '_'
    · rw [if_pos hab, collapse_head? (b :: rest)]
      simp [hab.1, hab.2]
    · rw [if_neg hab]
      rfl

theorem collapse_chain (l : List Char) :
    List.Chain' (fun a b => ¬(a = '_' ∧ b = '_')) (collapseUnderscores l) :=
  match l with
  | [] => List.chain'_nil
  | [a] => List.chain'_singleton a
  | a :: b :: rest => by
    rw [collapseUnderscores]
    by_cases hab : a = '_' ∧ b = '_'
    · rw [if_pos hab]
      exact collapse_chain (b :: rest)
    · rw [if_neg hab]
      refine List.Chain'.cons' (collapse_chain (b :: rest)) ?_
      intro y hy
      rw [collapse_head? (b :: rest)] at hy
      simp only [List.head?_cons, Option.mem_def, Option.some.injEq] at hy
      subst hy
      exact hab

theorem underscoreSub_ok (l : List Char) : ∀ c ∈ underscoreSub l, isOkChar c = true := by
  intro c hc
  rw [underscoreSub] at hc
  obtain ⟨a, _, rfl⟩ := List.mem_map.mp hc
  by_cases h : isOkChar a
  · rw [if_pos h]
    exact h
  · rw [if_neg h]
    decide

theorem head?_dropWhile_not (p : Char → Bool) :
    ∀ (l : List Char) (c : Char), (l.dropWhile p).head? = some c → p c = false
  | [], c, h => by simp at h
  | a :: rest, c, h => by
    by_cases hpa : p a
    · rw [List.dropWhile_cons_of_pos hpa] at h
      exact head?_dropWhile_not p rest c h
    · rw [List.dropWhile_cons_of_neg hpa] at h
      simp only [List.head?_cons, Option.some.injEq] at h
      subst h
      simpa using hpa

/-- `stripUnderscores` in terms of the Mathlib from-the-right API. -/
theorem stripUnderscores_eq (l : List Char) :
    stripUnderscores l =
      List.rdropWhile (fun c => c == '_') (l.dropWhile (fun c => c == '_')) := rfl

theorem stripUnderscores_infix_self (l : List Char) : stripUnderscores l <:+: l := by
  rw [stripUnderscores_eq]
  exact List.IsInfix.trans
    (List.IsPrefix.isInfix (List.rdropWhile_prefix _ _))
    (List.IsSuffix.isInfix (List.dropWhile_suffix _))

theorem stripUnderscores_head (l : List Char) (c : Char)
    (h : (stripUnderscores l).head? = some c) : (c == '_') = false := by
  obtain ⟨t, ht⟩ := List.rdropWhile_prefix (fun c => c == '_') (l.dropWhile (fun c => c == '_'))
  rw [stripUnderscores_eq] at h
  apply head?_dropWhile_not (fun c => c == '_') l c
  rw [← ht]
  cases hs : List.rdropWhile (fun c => c == '_') (l.dropWhile (fun c => c == '_')) with
  | nil => rw [hs] at h; simp at h
  | cons x xs =>
    rw [hs] at h
    simp only [List.head?_cons, Option.some.injEq] at h
    subst h
    rfl

theorem stripUnderscores_getLast (l : List Char) (c : Char)
    (h : (stripUnderscores l).getLast? = some c) : (c == '_') = false := by
  rw [stripUnderscores] at h
  rw [List.getLast?_reverse] at h
  exact head?_dropWhile_not (fun c => c == '_') _ c h

/-- Shape of the last three sanitizer stages, for any input `m`: only
letters, digits and underscores survive; no run of two underscores; no
leading or trailing underscore. -/
theorem sanitizeTail_shape (m : List Char) :
    (∀ c ∈ stripUnderscores (collapseUnderscores (underscoreSub m)), isOkChar c = true) ∧
    List.Chain' (fun a b => ¬(a = '_' ∧ b = '_'))
      (stripUnderscores (collapseUnderscores (underscoreSub m))) ∧
    (∀ c, (stripUnderscores (collapseUnderscores (underscoreSub m))).head? = some c →
      (c == '_') = false) ∧
    (∀ c, (stripUnderscores (collapseUnderscores (underscoreSub m))).getLast? = some c →
      (c == '_') = false) := by
  refine ⟨?_, ?_, ?_, ?_⟩
  · intro c hc
    have h1 : c ∈ collapseUnderscores (underscoreSub m) :=
      (stripUnderscores_infix_self _).sublist.mem hc
    exact underscoreSub_ok m c (mem_collapse _ c h1)
  · exact List.Chain'.infix (collapse_chain (underscoreSub m)) (stripUnderscores_infix_self _)
  · exact stripUnderscores_head _
  · exact stripUnderscores_getLast _

theorem chain'_no_double {l : List Char}
    (h : List.Chain' (fun a b => ¬(a = '_' ∧ b = '_')) l) (i : Nat) :
    ¬(l[i]? = some '_' ∧ l[i + 1]? = some '_') := by
  rintro ⟨h1, h2⟩
  obtain ⟨hlt2, hget2⟩ := List.getElem?_eq_some.mp h2
  obtain ⟨hlt1, hget1⟩ := List.getElem?_eq_some.mp h1
  have hi : i < l.length - 1 := by omega
  have hr := List.chain'_iff_get.mp h i hi
  rw [List.get_eq_getElem, List.get_eq_getElem] at hr
  exact hr ⟨hget1, hget2⟩

/-- C5: the sanitizer's output contains only ASCII letters, digits and
underscores, never starts or ends with an underscore and never contains
two consecutive underscores; the claim's example holds and the empty
string maps to the empty string. -/
theorem sanitize_output_shape (name : String) :
    (∀ c ∈ (sanitize_column_name name).toList, c.isAlphanum = true ∨ c = '_') ∧
    (∀ c, (sanitize_column_name name).toList.head? = some c → c ≠ '_') ∧
    (∀ c, (sanitize_column_name name).toList.getLast? = some c → c ≠ '_') ∧
    (∀ i : Nat, ¬((sanitize_column_name name).toList[i]? = some '_' ∧
      (sanitize_column_name name).toList[i + 1]? = some '_')) ∧
    sanitize_column_name "Revenue %/Total" = "Revenue_percent_per_Total" ∧
    sanitize_column_name "" = "" := by
  obtain ⟨hok, hch, hhd, hlast⟩ := sanitizeTail_shape
    (replaceChar '/' "_per_".toList (replaceChar '%' "percent".toList name.toList))
  refine ⟨?_, ?_, ?_, ?_, by decide, rfl⟩
  · intro c hc
    have h := hok c hc
    rw [isOkChar, Bool.or_eq_true] at h
    rcases h with h | h
    · exact Or.inl h
    · exact Or.inr (by simpa using h)
  · intro c h
    simpa using hhd c h
  · intro c h
    simpa using hlast c h
  · exact fun i => chain'_no_double hch i

theorem sanitize_output_shape_witness :
    ('R' ≠ '_') ∧
    sanitize_column_name "Revenue %/Total" = "Revenue_percent_per_Total" :=
  ⟨(sanitize_output_shape "Revenue %/Total").2.1 'R' rfl,
   (sanitize_output_shape "Revenue %/Total").2.2.2.2.1⟩

/-! ## Sanitizer idempotence -/

theorem replaceChar_eq_self (c : Char) (r : List Char) :
    ∀ (l : List Char), (∀ a ∈ l, a ≠ c) → replaceChar c r l = l
  | [], _ => rfl
  | a :: rest, h => by
    rw [replaceChar, if_neg (h a (List.mem_cons_self a rest)),
      replaceChar_eq_self c r rest (fun x hx => h x (List.mem_cons_of_mem a hx))]
    rfl

theorem underscoreSub_eq_self :
    ∀ (l : List Char), (∀ a ∈ l, isOkChar a = true) → underscoreSub l = l
  | [], _ => rfl
  | a :: rest, h => by
    have h1 : isOkChar a = true := h a (List.mem_cons_self a rest)
    have h2 := underscoreSub_eq_self rest (fun x hx => h x (List.mem_cons_of_mem a hx))
    rw [underscoreSub] at h2 ⊢
    rw [List.map_cons, if_pos h1, h2]

theorem collapse_eq_self :
    ∀ (l : List Char), List.Chain' (fun a b => ¬(a = '_' ∧ b = '_')) l →
      collapseUnderscores l = l
  | [], _ => rfl
  | [_], _ => rfl
  | a :: b :: rest, h => by
    rw [collapseUnderscores, if_neg (List.chain'_cons.mp h).1,
      collapse_eq_self (b :: rest) (List.chain'_cons.mp h).2]

theorem strip_eq_self (l : List Char)
    (h1 : ∀ c, l.head? = some c → (c == '_') = false)
    (h2 : ∀ c, l.getLast? = some c → (c == '_') = false) :
    stripUnderscores l = l := by
  have hdw : l.dropWhile (fun c => c == '_') = l := by
    rw [List.dropWhile_eq_self_iff]
    intro hl
    have hh : l.head? = some (l.get ⟨0, hl⟩) := by
      rw [List.head?_eq_getElem?, List.get_eq_getElem, List.getElem?_eq_getElem hl]
    simpa using h1 _ hh
  rw [stripUnderscores_eq, hdw, List.rdropWhile_eq_self_iff]
  intro hl
  have hg : l.getLast? = some (l.getLast hl) := List.getLast?_eq_getLast l hl
  simpa using h2 _ hg

/-- C6: the sanitizer is idempotent. -/
theorem sanitize_idempotent (x : String) :
    sanitize_column_name (sanitize_column_name x) = sanitize_column_name x := by
  obtain ⟨hok, hch, hhd, hlast⟩ := sanitizeTail_shape
    (replaceChar '/' "_per_".toList (replaceChar '%' "percent".toList x.toList))
  show String.mk (stripUnderscores (collapseUnderscores (underscoreSub
      (replaceChar '/' "_per_".toList (replaceChar '%' "percent".toList
        (stripUnderscores (collapseUnderscores (underscoreSub
          (replaceChar '/' "_per_".toList
            (replaceChar '%' "percent".toList x.toList)))))))))) =
    String.mk (stripUnderscores (collapseUnderscores (underscoreSub
      (replaceChar '/' "_per_".toList (replaceChar '%' "percent".toList x.toList)))))
  have hne1 : ∀ a ∈ stripUnderscores (collapseUnderscores (underscoreSub
      (replaceChar '/' "_per_".toList (replaceChar '%' "percent".toList x.toList)))),
      a ≠ '%' := by
    intro a ha heq
    subst heq
    exact absurd (hok _ ha) (by decide)
  have hne2 : ∀ a ∈ stripUnderscores (collapseUnderscores (underscoreSub
      (replaceChar '/' "_per_".toList (replaceChar '%' "percent".toList x.toList)))),
      a ≠ '/' := by
    intro a ha heq
    subst heq
    exact absurd (hok _ ha) (by decide)
  rw [replaceChar_eq_self _ _ _ hne1, replaceChar_eq_self _ _ _ hne2,
    underscoreSub_eq_self _ hok, collapse_eq_self _ hch, strip_eq_self _ hhd hlast]

theorem sanitize_idempotent_witness :
    sanitize_column_name (sanitize_column_name "Revenue %/Total") =
      sanitize_column_name "Revenue %/Total" :=
  sanitize_idempotent "Revenue %/Total"

/-! ## Reconciler lemmas -/

/-- Is this cell missing (pandas `isna`)? -/
def J.isNull : J → Bool
  | .null => true
  | _ => false

/-- Cell of a column at row `i` (missing when out of range). -/
def cellAt (col : List J) (i : Nat) : J := col[i]?.getD J.null

/-- First non-missing value of a list of cells, missing if all are. -/
def firstNonNull (vs : List J) : J := (vs.find? (fun v => !v.isNull)).getD J.null

/-- The claim's description of the surviving column names: the first
occurrence of each case-insensitive class, in order of first appearance. -/
def dedupCaseFold (names : List String) : List String :=
  names.foldl
    (fun acc s => if acc.any (fun t => strLower t == strLower s) then acc else acc ++ [s]) []

/-- The cells that a case-insensitive class of columns holds at row `i`,
in column order. -/
def classCells (df : List (String × List J)) (name : String) (i : Nat) : List J :=
  (df.filter (fun d => strLower d.1 == strLower name)).map (fun d => cellAt d.2 i)

theorem combine_first_match (x y : J) :
    (match x with | J.null => y | _ => x) = if x.isNull then y else x := by
  cases x <;> rfl

theorem length_combine_first (a b : List J) :
    (combine_first a b).length = min a.length b.length := by
  rw [combine_first]
  exact List.length_zipWith _ a b

theorem cellAt_combine_first (a b : List J) (i : Nat) (ha : i < a.length)
    (hb : i < b.length) :
    cellAt (combine_first a b) i = if (cellAt a i).isNull then cellAt b i else cellAt a i := by
  rw [cellAt, combine_first, List.getElem?_zipWith, List.getElem?_eq_getElem ha,
    List.getElem?_eq_getElem hb, cellAt, cellAt, List.getElem?_eq_getElem ha,
    List.getElem?_eq_getElem hb]
  simp only [Option.getD_some]
  exact combine_first_match _ _

theorem firstNonNull_single (v : J) : firstNonNull [v] = v := by
  cases v <;> rfl

theorem firstNonNull_append_single (l : List J) (v : J) :
    firstNonNull (l ++ [v]) = if (firstNonNull l).isNull then v else firstNonNull l := by
  rw [firstNonNull, firstNonNull, List.find?_append]
  cases hf : l.find? (fun v => !v.isNull) with
  | none =>
    simp only [Option.or, Option.getD_none]
    rw [show J.isNull J.null = true from rfl, if_pos rfl]
    cases v <;> rfl
  | some w =>
    have hw := List.find?_some hf
    rw [Bool.not_eq_true'] at hw
    simp only [Option.or, Option.getD_some]
    simp [hw]

theorem classCells_append_match (df : List (String × List J)) (col : String × List J)
    (name : String) (i : Nat) (h : (strLower col.1 == strLower name) = true) :
    classCells (df ++ [col]) name i = classCells df name i ++ [cellAt col.2 i] := by
  rw [classCells, List.filter_append, List.map_append, classCells]
  congr 1
  simp [h]

theorem classCells_append_nomatch (df : List (String × List J)) (col : String × List J)
    (name : String) (i : Nat) (h : (strLower col.1 == strLower name) = false) :
    classCells (df ++ [col]) name i = classCells df name i := by
  rw [classCells, List.filter_append, classCells]
  simp [h]

theorem any_map_general {α β : Type} (f : α → β) (p : β → Bool) :
    ∀ (l : List α), (l.map f).any p = l.any (fun a => p (f a))
  | [] => rfl
  | a :: rest => by
    rw [List.map_cons, List.any_cons, List.any_cons, any_map_general f p rest]

theorem reconcile_invariant (n : Nat) (df : List (String × List J)) :
    (∀ col ∈ df, col.2.length = n) →
    ((handle_case_insensitive_duplicates df).map (fun c => c.1) =
      dedupCaseFold (df.map (fun c => c.1))) ∧
    List.Pairwise (fun a b => strLower a.1 ≠ strLower b.1)
      (handle_case_insensitive_duplicates df) ∧
    (∀ col ∈ handle_case_insensitive_duplicates df,
      col.2.length = n ∧
      ∀ i, i < n → cellAt col.2 i = firstNonNull (classCells df col.1 i)) ∧
    (∀ d ∈ df, ∃ c ∈ handle_case_insensitive_duplicates df,
      strLower c.1 = strLower d.1) := by
  induction df using List.reverseRecOn with
  | nil =>
    intro _
    refine ⟨rfl, List.Pairwise.nil, ?_, ?_⟩ <;> intro c hc <;>
      simp [handle_case_insensitive_duplicates] at hc
  | append_singleton df col ih =>
    intro hlen
    have hlen1 : ∀ c ∈ df, c.2.length = n :=
      fun c hc => hlen c (List.mem_append_left _ hc)
    have hlenc : col.2.length = n :=
      hlen col (List.mem_append_right _ (List.mem_cons_self _ _))
    obtain ⟨ih1, ih2, ih3, ih4⟩ := ih hlen1
    have hS : handle_case_insensitive_duplicates (df ++ [col]) =
        (if (handle_case_insensitive_duplicates df).any
            (fun c => strLower c.1 == strLower col.1) then
          (handle_case_insensitive_duplicates df).map
            (fun c => if strLower c.1 == strLower col.1 then
              (c.1, combine_first c.2 col.2) else c)
        else handle_case_insensitive_duplicates df ++ [col]) := by
      rw [handle_case_insensitive_duplicates, List.foldl_append]
      rfl
    have hD : dedupCaseFold ((df ++ [col]).map (fun c => c.1)) =
        (if (dedupCaseFold (df.map (fun c => c.1))).any
            (fun t => strLower t == strLower col.1) then
          dedupCaseFold (df.map (fun c => c.1))
        else dedupCaseFold (df.map (fun c => c.1)) ++ [col.1]) := by
      rw [List.map_append, dedupCaseFold, List.foldl_append]
      rfl
    have hany : (handle_case_insensitive_duplicates df).any
        (fun c => strLower c.1 == strLower col.1) =
        (dedupCaseFold (df.map (fun c => c.1))).any
          (fun t => strLower t == strLower col.1) := by
      rw [← ih1]
      exact (any_map_general (fun c => c.1) (fun t => strLower t == strLower col.1)
        (handle_case_insensitive_duplicates df)).symm
    by_cases hb : (handle_case_insensitive_duplicates df).any
        (fun c => strLower c.1 == strLower col.1) = true
    · -- a case-variant of col is already present: merge and drop
      have hfst : ∀ c : String × List J,
          (if strLower c.1 == strLower col.1 then
            (c.1, combine_first c.2 col.2) else c).1 = c.1 := by
        intro c
        by_cases h : (strLower c.1 == strLower col.1) = true
        · rw [if_pos h]
        · rw [if_neg h]
      have hbD : (dedupCaseFold (df.map (fun c => c.1))).any
          (fun t => strLower t == strLower col.1) = true := hany ▸ hb
      rw [hS, if_pos hb, hD, if_pos hbD]
      refine ⟨?_, ?_, ?_, ?_⟩
      · rw [List.map_map, ← ih1]
        exact List.map_congr_left (fun c _ => hfst c)
      · refine List.pairwise_map.mpr (ih2.imp ?_)
        intro a b hab
        rw [hfst a, hfst b]
        exact hab
      · intro c2 hc2
        obtain ⟨c, hcmem, hceq⟩ := List.mem_map.mp hc2
        obtain ⟨ihl, ihcell⟩ := ih3 c hcmem
        subst hceq
        by_cases hm : (strLower c.1 == strLower col.1) = true
        · rw [if_pos hm]
          constructor
          · rw [length_combine_first, ihl, hlenc, min_self]
          · intro i hi
            rw [cellAt_combine_first c.2 col.2 i (by rw [ihl]; exact hi)
              (by rw [hlenc]; exact hi)]
            rw [classCells_append_match df col c.1 i
              (beq_iff_eq.mpr (beq_iff_eq.mp hm).symm)]
            rw [firstNonNull_append_single, ihcell i hi]
        · rw [if_neg hm]
          refine ⟨ihl, fun i hi => ?_⟩
          rw [classCells_append_nomatch df col c.1 i ?_]
          · exact ihcell i hi
          · have : strLower c.1 ≠ strLower col.1 := by simpa using hm
            simpa using this.symm
      · intro d hd
        rcases List.mem_append.mp hd with hd | hd
        · obtain ⟨c, hcmem, hceq⟩ := ih4 d hd
          exact ⟨_, List.mem_map_of_mem _ hcmem, by rw [hfst c]; exact hceq⟩
        · rw [List.mem_singleton] at hd
          rw [hd]
          obtain ⟨c, hcmem, hcbeq⟩ := List.any_eq_true.mp hb
          exact ⟨_, List.mem_map_of_mem _ hcmem, by rw [hfst c]; exact beq_iff_eq.mp hcbeq⟩
    · -- first time this case-insensitive name appears: append the column
      have hbf : (handle_case_insensitive_duplicates df).any
          (fun c => strLower c.1 == strLower col.1) = false := by
        simpa using hb
      have hne : ∀ c ∈ handle_case_insensitive_duplicates df,
          strLower c.1 ≠ strLower col.1 := by
        intro c hc
        simpa using List.any_eq_false.mp hbf c hc
      have hbD : ¬((dedupCaseFold (df.map (fun c => c.1))).any
          (fun t => strLower t == strLower col.1) = true) := by
        rw [← hany]
        exact hb
      rw [hS, if_neg hb, hD, if_neg hbD]
      refine ⟨?_, ?_, ?_, ?_⟩
      · rw [List.map_append, ih1]
        rfl
      · rw [List.pairwise_append]
        refine ⟨ih2, List.pairwise_singleton _ _, ?_⟩
        intro a ha b hbm
        rw [List.mem_singleton] at hbm
        subst hbm
        exact hne a ha
      · intro c hc
        rcases List.mem_append.mp hc with hc | hc
        · obtain ⟨ihl, ihcell⟩ := ih3 c hc
          refine ⟨ihl, fun i hi => ?_⟩
          rw [classCells_append_nomatch df col c.1 i (by simpa using (hne c hc).symm)]
          exact ihcell i hi
        · rw [List.mem_singleton] at hc
          rw [hc]
          refine ⟨hlenc, fun i hi => ?_⟩
          have hfil : df.filter (fun d => strLower d.1 == strLower col.1) = [] := by
            rw [List.filter_eq_nil_iff]
            intro d hd hdb
            obtain ⟨c2, hc2mem, hc2eq⟩ := ih4 d hd
            exact hne c2 hc2mem (hc2eq.trans (beq_iff_eq.mp hdb))
          rw [classCells_append_match df col col.1 i (beq_iff_eq.mpr rfl), classCells, hfil]
          rw [List.map_nil, List.nil_append, firstNonNull_single]
      · intro d hd
        rcases List.mem_append.mp hd with hd | hd
        · obtain ⟨c, hcmem, hceq⟩ := ih4 d hd
          exact ⟨c, List.mem_append_left _ hcmem, hceq⟩
        · rw [List.mem_singleton] at hd
          rw [hd]
          exact ⟨col, List.mem_append_right _ (List.mem_cons_self _ _), rfl⟩

/-- C3: reconciliation merges columns whose names differ only by letter
case into the first-seen canonical column. The surviving names are the
first occurrence of each case-insensitive class, in order of first
appearance (duplicates dropped); no two surviving columns differ only by
letter case; and each surviving column's cell at each row is the first
non-missing cell among that row's cells across the column's
case-insensitive class in column order — so the canonical column's
existing non-null value takes priority and a duplicate's value only fills
in where it is missing. -/
theorem reconcile_merges_case_duplicates (df : List (String × List J)) (n : Nat)
    (hlen : ∀ col ∈ df, col.2.length = n) :
    ((handle_case_insensitive_duplicates df).map (fun c => c.1) =
      dedupCaseFold (df.map (fun c => c.1))) ∧
    (∀ a ∈ handle_case_insensitive_duplicates df,
      ∀ b ∈ handle_case_insensitive_duplicates df,
        strLower a.1 = strLower b.1 → a.1 = b.1) ∧
    (∀ col ∈ handle_case_insensitive_duplicates df,
      col.2.length = n ∧
      ∀ i, i < n → cellAt col.2 i = firstNonNull (classCells df col.1 i)) := by
  obtain ⟨h1, h2, h3, _⟩ := reconcile_invariant n df hlen
  refine ⟨h1, ?_, h3⟩
  intro a ha b hb heq
  by_cases hab : a = b
  · rw [hab]
  · exact absurd heq (h2.forall (fun {x y} h => h.symm) ha hb hab)

theorem reconcile_merges_case_duplicates_witness :
    (∀ col ∈ [("Name", [J.str "x", J.null]), ("name", [J.str "y", J.str "z"])],
      (col : String × List J).2.length = 2) ∧
    (handle_case_insensitive_duplicates
        [("Name", [J.str "x", J.null]), ("name", [J.str "y", J.str "z"])]).map
      (fun c => c.1) = ["Name"] ∧
    handle_case_insensitive_duplicates
        [("Name", [J.str "x", J.null]), ("name", [J.str "y", J.str "z"])] =
      [("Name", [J.str "x", J.str "z"])] := by
  have hlen : ∀ col ∈ [("Name", [J.str "x", J.null]), ("name", [J.str "y", J.str "z"])],
      (col : String × List J).2.length = 2 := by
    intro col hc
    rcases List.mem_cons.mp hc with rfl | hc2
    · rfl
    · rcases List.mem_cons.mp hc2 with rfl | h3
      · rfl
      · cases h3
  exact ⟨hlen,
    (reconcile_merges_case_duplicates
      [("Name", [J.str "x", J.null]), ("name", [J.str "y", J.str "z"])] 2 hlen).1.trans rfl,
    rfl⟩

end CloudFlattener
